import Mathlib

/-!
# Verification of the `parity` Figma client core

Shallow embedding of the rate limiter, frame discovery, batched export,
and image cache of `FigmaClient` (source file: the Figma API client module,
`src/unnamed/part_007`), together with proofs of the specified properties.

Conventions of the embedding:
* JavaScript numbers that only ever hold millisecond timestamps, durations
  or counters are modelled as `Nat`; bounding-box coordinates (which the
  client only copies, never computes with) are modelled as `Int`.
* Asynchronous code is modelled by explicit state passing over an idealized
  clock: `sleep(ms)` wakes exactly `ms` later, `Date.now()` reads the clock.
* Fallible code returns `Except String`; a thrown `Error(msg)` is
  `.error msg`.
* The filesystem is a partial map from path to byte list; `fetch` is an
  oracle from URL to a response record.
-/

namespace Parity

/-! ## RateLimiter (source lines 110-159)

```
constructor(requestsPerMinute: number) {
  this.minDelay = Math.ceil(60000 / requestsPerMinute);
}
```
-/

/-- `Math.ceil(60000 / requestsPerMinute)` (line 117), written as the
natural-number ceiling division `(60000 + R - 1) / R`. -/
def minDelayOf (requestsPerMinute : Nat) : Nat :=
  (60000 + requestsPerMinute - 1) / requestsPerMinute

/-- Sanity check: `minDelayOf` is the mathematical ceiling of `60000 / R`. -/
theorem minDelayOf_eq_ceil (R : Nat) (hR : 0 < R) :
    minDelayOf R = ⌈(60000 : ℚ) / (R : ℚ)⌉₊ := by
  have hRQ : (0 : ℚ) < (R : ℚ) := by exact_mod_cast hR
  have hdm := Nat.div_add_mod (60000 + R - 1) R
  have hmlt : (60000 + R - 1) % R < R := Nat.mod_lt _ hR
  rcases hk : (60000 + R - 1) / R with _ | k
  · rw [hk] at hdm; omega
  · rw [hk] at hdm
    have hmul : R * (k + 1) = R * k + R := by ring
    rw [hmul] at hdm
    have h1c : k * R < 60000 := by
      have : k * R = R * k := Nat.mul_comm k R
      omega
    have h2c : 60000 ≤ (k + 1) * R := by
      have : (k + 1) * R = R * k + R := by ring
      omega
    unfold minDelayOf
    rw [hk]
    symm
    rw [Nat.ceil_eq_iff (Nat.succ_ne_zero k)]
    constructor
    · have hksub : k + 1 - 1 = k := by omega
      rw [hksub, lt_div_iff₀ hRQ]
      exact_mod_cast h1c
    · rw [div_le_iff₀ hRQ]
      exact_mod_cast h2c

/-- One run of the drain loop `processQueue` (lines 134-154) over an
idealized clock.  `last` is `this.lastRequestTime`, `now` is `Date.now()`
at the top of the loop body (line 139), and each queued task is represented
by its duration (the time between `await task()` starting and settling).
The result lists, for each task in queue order, the dispatch time: the
value stored into `this.lastRequestTime` at line 148, immediately before
`await task()`.

At lines 142-144, if `elapsed < minDelay` the loop sleeps
`minDelay - elapsed`, waking exactly at `last + minDelay`; otherwise no
sleep occurs and the task is dispatched at `now`.  Line 149 awaits the task
before the next iteration, so the clock at the next loop-head is the
previous dispatch time plus the task's duration. -/
def dispatchTimes (minDelay : Nat) : List Nat → Nat → Nat → List Nat
  | [], _, _ => []
  | d :: rest, now, last =>
    let t := if now - last < minDelay then last + minDelay else now
    t :: dispatchTimes minDelay rest (t + d) t

/-- Helper: the first dispatch of a drain run happens no earlier than
`last + minDelay` provided the clock has not run backwards. -/
theorem dispatchTimes_head_ge (minDelay : Nat) (durs : List Nat)
    (now last : Nat) (h : last ≤ now) :
    ∀ t ∈ (dispatchTimes minDelay durs now last).head?, last + minDelay ≤ t := by
  cases durs with
  | nil => intro t ht; simp [dispatchTimes] at ht
  | cons d rest =>
    intro t ht
    simp only [dispatchTimes, List.head?_cons, Option.mem_def,
      Option.some.injEq] at ht
    subst ht
    by_cases hlt : now - last < minDelay
    · simp [hlt]
    · simp only [hlt, if_false]
      omega

/-- Chain lemma: inside one drain run, consecutive dispatch times are at
least `minDelay` apart. -/
theorem dispatchTimes_chain (minDelay : Nat) :
    ∀ (durs : List Nat) (now last : Nat),
      (dispatchTimes minDelay durs now last).Chain' (fun a b => a + minDelay ≤ b) := by
  intro durs
  induction durs with
  | nil => intro now last; simp [dispatchTimes]
  | cons d rest ih =>
    intro now last
    simp only [dispatchTimes]
    rw [List.chain'_cons']
    exact ⟨dispatchTimes_head_ge minDelay rest _ _ (Nat.le_add_right _ d), ih _ _⟩

/-- **C2.** For every sequence of tasks run through one `RateLimiter` built
with `requestsPerMinute = R`, the gap between the start times of any two
consecutive dispatches is at least `ceil(60000 / R)` milliseconds; the
last-dispatch timestamp is taken at the actual dispatch time (line 148),
which is exactly how `dispatchTimes` threads `last`. -/
theorem rateLimiter_min_gap (R : Nat) (hR : 0 < R)
    (durs : List Nat) (now last : Nat) :
    (dispatchTimes (minDelayOf R) durs now last).Chain'
      (fun a b => a + ⌈(60000 : ℚ) / (R : ℚ)⌉₊ ≤ b) := by
  rw [← minDelayOf_eq_ceil R hR]
  exact dispatchTimes_chain (minDelayOf R) durs now last

/-- Witness for C2 at `R = 20` with three queued tasks. -/
theorem rateLimiter_min_gap_witness :
    0 < 20 ∧ (dispatchTimes (minDelayOf 20) [5, 0, 10000] 1700000000000 0).Chain'
      (fun a b => a + ⌈(60000 : ℚ) / (20 : ℚ)⌉₊ ≤ b) :=
  ⟨by decide, rateLimiter_min_gap 20 (by decide) [5, 0, 10000] 1700000000000 0⟩

/-- Like `dispatchTimes`, but each task carries an arbitrary payload `a : α`
identifying the submission (the caller's future), and the result records
for each task its dispatch time and its completion time
`dispatch + duration` (line 149 awaits the task before looping). -/
def runSchedule {α : Type} (minDelay : Nat) :
    List (Nat × α) → Nat → Nat → List (α × Nat × Nat)
  | [], _, _ => []
  | (d, a) :: rest, now, last =>
    let t := if now - last < minDelay then last + minDelay else now
    (a, t, t + d) :: runSchedule minDelay rest (t + d) t

/-- Helper: the first entry of a drain run is dispatched no earlier than the
clock at loop entry, and completes no earlier than it is dispatched. -/
theorem runSchedule_head_ge {α : Type} (minDelay : Nat)
    (tasks : List (Nat × α)) (now last : Nat) (h : last ≤ now) :
    ∀ p ∈ (runSchedule minDelay tasks now last).head?,
      now ≤ p.2.1 ∧ p.2.1 ≤ p.2.2 := by
  cases tasks with
  | nil => intro p hp; simp [runSchedule] at hp
  | cons da rest =>
    obtain ⟨d, a⟩ := da
    intro p hp
    simp only [runSchedule, List.head?_cons, Option.mem_def,
      Option.some.injEq] at hp
    subst hp
    by_cases hlt : now - last < minDelay
    · simp only [hlt, if_true]
      constructor
      · omega
      · exact Nat.le_add_right _ d
    · simp only [hlt, if_false]
      exact ⟨Nat.le_refl _, Nat.le_add_right _ d⟩

/-- **C3.** Tasks submitted to one `RateLimiter` are dispatched and resolved
in exactly submission order: the output pairs payloads with the input order
(first conjunct), each task completes before the next is dispatched and both
dispatch and completion times are monotone along the queue (second
conjunct), and no task completes before it is dispatched (third conjunct) —
so a later-submitted task can never resolve before an earlier one, whatever
the durations. -/
theorem rateLimiter_fifo {α : Type} (R : Nat)
    (tasks : List (Nat × α)) (now last : Nat) :
    ((runSchedule (minDelayOf R) tasks now last).map Prod.fst
        = tasks.map Prod.snd)
    ∧ (runSchedule (minDelayOf R) tasks now last).Chain'
        (fun p q => p.2.2 ≤ q.2.1 ∧ p.2.1 ≤ q.2.1 ∧ p.2.2 ≤ q.2.2)
    ∧ ∀ p ∈ runSchedule (minDelayOf R) tasks now last, p.2.1 ≤ p.2.2 := by
  refine ⟨?_, ?_, ?_⟩
  · induction tasks generalizing now last with
    | nil => simp [runSchedule]
    | cons da rest ih =>
      obtain ⟨d, a⟩ := da
      simp only [runSchedule, List.map_cons, List.cons.injEq]
      exact ⟨trivial, ih _ _⟩
  · induction tasks generalizing now last with
    | nil => simp [runSchedule]
    | cons da rest ih =>
      obtain ⟨d, a⟩ := da
      simp only [runSchedule]
      rw [List.chain'_cons']
      constructor
      · intro q hq
        have h2 := runSchedule_head_ge (minDelayOf R) rest _ _
          (Nat.le_add_right _ d) q hq
        dsimp only
        refine ⟨h2.1, ?_, ?_⟩ <;> omega
      · exact ih _ _
  · induction tasks generalizing now last with
    | nil => simp [runSchedule]
    | cons da rest ih =>
      obtain ⟨d, a⟩ := da
      intro p hp
      simp only [runSchedule, List.mem_cons] at hp
      rcases hp with hp | hp
      · subst hp; exact Nat.le_add_right _ d
      · exact ih _ _ p hp

/-- Settlement of one caller's future. -/
inductive Settled (ε α : Type) where
  | resolved (v : α)
  | rejected (e : ε)
deriving DecidableEq, Repr

/-- The thunk that `schedule` pushes onto the queue (lines 122-129): run the
task (`fn`, whose outcome is given as an `Except`); `resolve(result)` on
success, `reject(error)` on throw.  In both cases the thunk itself returns
normally — the `try/catch` confines the failure to the caller's own
future.  The outer `Except` is the thunk's own outcome as observed by
`await task()` in the drain loop (line 149). -/
def wrappedTask {ε α : Type} (fn : Except ε α) : Except ε (Settled ε α) :=
  match fn with
  | .ok v => .ok (.resolved v)
  | .error e => .ok (.rejected e)

/-- The drain loop's interaction with task outcomes (lines 138-151): an
error escaping a thunk at `await task()` would abort the loop (modelled by
the `Except` short-circuit); otherwise the loop records the settlement and
continues with the next queued thunk. -/
def drainAll {ε α : Type} : List (Except ε α) → Except ε (List (Settled ε α))
  | [] => .ok []
  | fn :: rest =>
    match wrappedTask fn with
    | .error e => .error e
    | .ok s => (drainAll rest).map (fun l => s :: l)

/-- A task's own outcome, as its caller's future should settle. -/
def settleOf {ε α : Type} : Except ε α → Settled ε α
  | .ok v => .resolved v
  | .error e => .rejected e

/-- **C4.** For every queue of tasks, some of which throw, the drain loop
never aborts: it returns normally having executed every queued task, and
the `i`-th caller's future settles with exactly the `i`-th task's own
outcome — a rejection reaches only its own caller and never stalls or
poisons the queue. -/
theorem rateLimiter_failure_isolated {ε α : Type}
    (tasks : List (Except ε α)) :
    drainAll tasks = Except.ok (tasks.map settleOf) := by
  induction tasks with
  | nil => rfl
  | cons fn rest ih =>
    cases fn with
    | ok v => simp [drainAll, wrappedTask, settleOf, ih, Except.map]
    | error e => simp [drainAll, wrappedTask, settleOf, ih, Except.map]

/-- Events observable synchronously during one `schedule` call
(lines 120-132).  `new Promise(executor)` runs its executor synchronously;
the executor pushes the wrapped task and calls `processQueue()` (line 130);
an `async` function body runs synchronously until its first `await`.
* `taskPushed`     — line 122, always;
* `drainSkipped`   — line 135 returns early (`processing` is set, or the
                     queue is empty — impossible here, the task was just
                     pushed);
* `sleepSuspended` — line 143 is the first `await`: nothing has run yet;
* `taskStarted`    — line 149 invokes `task()`, which calls `fn()`
                     (line 124) synchronously up to `fn`'s first internal
                     suspension: the submitted task has begun executing
                     inside the `schedule` call. -/
inductive SyncEvent where
  | taskPushed
  | drainSkipped
  | sleepSuspended
  | taskStarted
deriving DecidableEq, Repr

/-- The synchronous trace of `schedule` on a limiter whose state is
`processing`, a queue of length `queueLen` (before the push),
`lastRequestTime = last`, `Date.now() = now`, and `minDelay`. -/
def scheduleSyncEvents (processing : Bool) (queueLen : Nat)
    (last now minDelay : Nat) : List SyncEvent :=
  SyncEvent.taskPushed ::
    (if processing || queueLen + 1 == 0 then [SyncEvent.drainSkipped]
     else if now - last < minDelay then [SyncEvent.sleepSuspended]
     else [SyncEvent.taskStarted])

/-- **C5 counterexample.** On an idle limiter (no active drain, empty
queue) whose minimum interval has already elapsed — e.g. a freshly
constructed limiter, where `lastRequestTime = 0` and `Date.now()` is a
large epoch timestamp — the drain loop reaches `await task()` with no
intervening suspension: the submitted task begins executing synchronously
within the `schedule` call itself, contrary to the claim. -/
theorem schedule_sync_start_counterexample :
    SyncEvent.taskStarted ∈ scheduleSyncEvents false 0 0 1700000000000 3000 := by
  decide

/-- **C5 (amended).** `schedule` begins executing the submitted task
synchronously exactly when no drain is active and the minimum interval has
already elapsed (`now - lastRequestTime ≥ minDelay`); in every other state
(drain in progress, or an interval wait due) execution is deferred past the
first suspension point. -/
theorem schedule_sync_start_iff (processing : Bool) (queueLen : Nat)
    (last now minDelay : Nat) :
    SyncEvent.taskStarted ∈ scheduleSyncEvents processing queueLen last now minDelay
      ↔ processing = false ∧ minDelay ≤ now - last := by
  cases processing with
  | false =>
    by_cases hlt : now - last < minDelay
    · simp only [scheduleSyncEvents]
      simp [hlt]
    · simp only [scheduleSyncEvents]
      simp [hlt]
      omega
  | true => simp [scheduleSyncEvents]

/-! ## Node trees and frame discovery (source lines 21-104 and 268-296) -/

/-- `absoluteBoundingBox` (schema lines 26-31).  The client only copies
these numbers, never computes with them, so they are modelled as `Int`. -/
structure BoundingBox where
  x : Int
  y : Int
  width : Int
  height : Int
deriving DecidableEq, Repr

/-- A Figma document node (schema lines 21-48), restricted to the fields
`findFrames` reads: `id`, `name`, `type`, optional `absoluteBoundingBox`,
optional `children`.  An absent `children` array behaves exactly like an
empty one (the guard at line 289 just skips the loop), so both are
modelled as `[]`. -/
inductive FigmaNode where
  | mk (id name type : String) (absoluteBoundingBox : Option BoundingBox)
      (children : List FigmaNode)

def FigmaNode.id : FigmaNode → String
  | .mk i _ _ _ _ => i

def FigmaNode.name : FigmaNode → String
  | .mk _ nm _ _ _ => nm

def FigmaNode.type : FigmaNode → String
  | .mk _ _ ty _ _ => ty

def FigmaNode.absoluteBoundingBox : FigmaNode → Option BoundingBox
  | .mk _ _ _ bbox _ => bbox

def FigmaNode.children : FigmaNode → List FigmaNode
  | .mk _ _ _ _ cs => cs

/-- `ExportedFrame` (interface lines 74-88). -/
structure ExportedFrame where
  nodeId : String
  name : String
  path : String
  imageUrl : String
  localPath : Option String
  width : Int
  height : Int
  boundingBox : BoundingBox
deriving DecidableEq, Repr

mutual

/-- `findFrames(node, path = [])` (lines 268-296): push a frame record when
the node's type is `FRAME` or `COMPONENT` and it has a bounding box
(lines 273-276), then recurse into the children with the extended path. -/
def findFrames : FigmaNode → List String → List ExportedFrame
  | .mk i nm ty bbox children, path =>
    let currentPath := path ++ [nm]
    (if ty == "FRAME" || ty == "COMPONENT" then
      match bbox with
      | some b =>
        [{ nodeId := i, name := nm,
           path := String.intercalate " / " currentPath,
           imageUrl := "", localPath := none,
           width := b.width, height := b.height, boundingBox := b }]
      | none => []
    else []) ++ findFramesList children currentPath
termination_by n _ => sizeOf n
decreasing_by
  all_goals simp_wf

/-- The `for (const child of node.children)` loop (lines 289-293): append
the recursive results of the sibling subtrees in their original order. -/
def findFramesList : List FigmaNode → List String → List ExportedFrame
  | [], _ => []
  | c :: cs, p => findFrames c p ++ findFramesList cs p
termination_by cs _ => sizeOf cs
decreasing_by
  all_goals simp_wf
  all_goals try omega

end

/-- Recursor following the tree structure, with the inductive hypothesis
available for every child. -/
def FigmaNode.indOn {P : FigmaNode → Prop}
    (h : ∀ i nm ty bbox children,
      (∀ c ∈ children, P c) → P (.mk i nm ty bbox children)) :
    ∀ n, P n
  | .mk i nm ty bbox children =>
    h i nm ty bbox children (fun c hc => FigmaNode.indOn h c)
termination_by n => sizeOf n
decreasing_by
  simp only [FigmaNode.mk.sizeOf_spec]
  have := List.sizeOf_lt_of_mem hc
  omega

mutual

/-- Spec-side walker, first half: the depth-first pre-order listing of all
nodes of the tree, each paired with its ancestor chain (the names from the
root down to and including the node itself). -/
def preorderNodes : FigmaNode → List String → List (FigmaNode × List String)
  | .mk i nm ty bbox children, anc =>
    let cp := anc ++ [nm]
    (FigmaNode.mk i nm ty bbox children, cp) :: preorderList children cp
termination_by n _ => sizeOf n
decreasing_by
  all_goals simp_wf

/-- Pre-order listings of sibling subtrees, in their original order. -/
def preorderList : List FigmaNode → List String → List (FigmaNode × List String)
  | [], _ => []
  | c :: cs, p => preorderNodes c p ++ preorderList cs p
termination_by cs _ => sizeOf cs
decreasing_by
  all_goals simp_wf
  all_goals try omega

end

/-- Spec-side walker, second half: keep exactly the nodes whose type is
`FRAME` or `COMPONENT` and which carry a bounding box, building the frame
record from the node and its ancestor chain joined by `" / "`. -/
def specSelect (p : FigmaNode × List String) : Option ExportedFrame :=
  if p.1.type == "FRAME" || p.1.type == "COMPONENT" then
    match p.1.absoluteBoundingBox with
    | some b =>
      some { nodeId := p.1.id, name := p.1.name,
             path := String.intercalate " / " p.2,
             imageUrl := "", localPath := none,
             width := b.width, height := b.height, boundingBox := b }
    | none => none
  else none

/-- Spec-side walker: the qualifying nodes of the pre-order listing. -/
def specFrames (n : FigmaNode) (anc : List String) : List ExportedFrame :=
  (preorderNodes n anc).filterMap specSelect

/-- Helper: the child loop agrees with filtering the pre-order listings of
the sibling subtrees. -/
theorem findFramesList_eq (children : List FigmaNode) (cp : List String)
    (ih : ∀ c ∈ children, ∀ anc, findFrames c anc = specFrames c anc) :
    findFramesList children cp = (preorderList children cp).filterMap specSelect := by
  induction children with
  | nil => simp [findFramesList, preorderList]
  | cons c rest ihc =>
    simp only [findFramesList, preorderList, List.filterMap_append]
    rw [ih c (List.mem_cons_self _ _) cp,
      ihc (fun c' hc' => ih c' (List.mem_cons_of_mem _ hc'))]
    rfl

/-- **C6.** `findFrames` returns exactly the nodes whose type is `FRAME` or
`COMPONENT` and which carry a bounding box — all other nodes are excluded,
and qualifying-typed nodes without a bounding box are silently skipped — in
depth-first pre-order (a node before its descendants, sibling subtrees in
original order), each with `path` equal to its ancestor chain including its
own name joined by `" / "`: it coincides with filtering the pre-order
listing of the tree. -/
theorem findFrames_preorder_spec :
    ∀ (n : FigmaNode) (anc : List String), findFrames n anc = specFrames n anc := by
  refine FigmaNode.indOn
    (P := fun n => ∀ anc, findFrames n anc = specFrames n anc) ?_
  intro i nm ty bbox children ih anc
  have htail := findFramesList_eq children (anc ++ [nm])
    (fun c hc anc' => ih c hc anc')
  by_cases hty : (ty == "FRAME" || ty == "COMPONENT") = true
  · cases bbox with
    | some b =>
      simp only [findFrames, specFrames, preorderNodes, List.filterMap_cons,
        specSelect, FigmaNode.type, FigmaNode.id, FigmaNode.name,
        FigmaNode.absoluteBoundingBox, hty, if_true, htail,
        List.singleton_append, List.nil_append]
    | none =>
      simp only [findFrames, specFrames, preorderNodes, List.filterMap_cons,
        specSelect, FigmaNode.type, FigmaNode.absoluteBoundingBox, hty,
        if_true, htail, List.nil_append]
  · rw [Bool.not_eq_true] at hty
    cases bbox <;>
      simp only [findFrames, specFrames, preorderNodes, List.filterMap_cons,
        specSelect, FigmaNode.type, hty, Bool.false_eq_true, if_false, htail,
        List.nil_append]

/-! ## Batched image export (source lines 237-259 and 323-334) -/

/-- `const batchSize = 100` (line 324). -/
def batchSize : Nat := 100

/-- The merge `images[frame.nodeId] || ''` (line 332): an identifier absent
from the response mapping yields `""`; a present URL is kept (a present but
empty string is also `""` under JS `||`, which `Option.getD ""` matches). -/
def urlOrEmpty (o : Option String) : String := o.getD ""

/-- Contiguous slices of at most `bs` elements, as produced by the loop
header `for (let i = 0; i < frames.length; i += batchSize)` with
`frames.slice(i, i + batchSize)` (lines 325-326).  The `fuel` argument
bounds the number of loop iterations; `chunkList` supplies the list
length, which suffices because every iteration consumes at least one
element. -/
def chunkGo (bs : Nat) : Nat → List α → List (List α)
  | _, [] => []
  | 0, _ :: _ => []
  | fuel + 1, x :: xs => (x :: xs).take bs :: chunkGo bs fuel ((x :: xs).drop bs)

def chunkList (bs : Nat) (xs : List α) : List (List α) := chunkGo bs xs.length xs

/-- The batching loop of `exportAllFrames` (lines 323-334), with explicit
iteration fuel.  `resp ids` is the identifier→URL mapping returned by the
`exportImages` call for `ids` (line 329).  Returns the id-lists passed to
`exportImages`, in call order, and the frames with `imageUrl` merged in
(lines 331-333). -/
def exportLoop (resp : List String → String → Option String) :
    Nat → List ExportedFrame → List (List String) × List ExportedFrame
  | _, [] => ([], [])
  | 0, _ :: _ => ([], [])
  | fuel + 1, x :: xs =>
    let batch := (x :: xs).take batchSize
    let ids := batch.map (fun f => f.nodeId)
    let images := resp ids
    let merged := batch.map (fun f =>
      { f with imageUrl := urlOrEmpty (images f.nodeId) })
    let rest := exportLoop resp fuel ((x :: xs).drop batchSize)
    (ids :: rest.1, merged ++ rest.2)

/-- The batching stage on a whole frame list. -/
def exportAllFramesBatches (resp : List String → String → Option String)
    (frames : List ExportedFrame) : List (List String) × List ExportedFrame :=
  exportLoop resp frames.length frames

/-- Helper: the slices reassemble to the original list. -/
theorem chunkGo_flatten (bs : Nat) (hbs : 1 ≤ bs) :
    ∀ (fuel : Nat) (xs : List α), xs.length ≤ fuel →
      (chunkGo bs fuel xs).flatten = xs := by
  intro fuel
  induction fuel with
  | zero =>
    intro xs hx
    have : xs = [] := List.eq_nil_of_length_eq_zero (by omega)
    subst this
    rfl
  | succ fuel ih =>
    intro xs hx
    cases xs with
    | nil => rfl
    | cons x rest =>
      simp only [List.length_cons] at hx
      simp only [chunkGo, List.flatten_cons]
      have hlen : ((x :: rest).drop bs).length ≤ fuel := by
        simp only [List.length_drop, List.length_cons]
        omega
      rw [ih _ hlen]
      exact List.take_append_drop bs (x :: rest)

/-- Helper: every slice has at most `bs` elements. -/
theorem chunkGo_length_le (bs : Nat) :
    ∀ (fuel : Nat) (xs : List α), ∀ b ∈ chunkGo bs fuel xs, b.length ≤ bs := by
  intro fuel
  induction fuel with
  | zero =>
    intro xs b hb
    cases xs <;> simp [chunkGo] at hb
  | succ fuel ih =>
    intro xs b hb
    cases xs with
    | nil => simp [chunkGo] at hb
    | cons x rest =>
      simp only [chunkGo, List.mem_cons] at hb
      rcases hb with hb | hb
      · subst hb
        simp [List.length_take]
      · exact ih _ b hb

/-- Helper: the batching loop issues one call per slice, in slice order,
and merges each response back onto that slice's frames. -/
theorem exportLoop_spec (resp : List String → String → Option String) :
    ∀ (fuel : Nat) (xs : List ExportedFrame), xs.length ≤ fuel →
      exportLoop resp fuel xs
        = ((chunkGo batchSize fuel xs).map (fun b => b.map (fun f => f.nodeId)),
           ((chunkGo batchSize fuel xs).map (fun b => b.map (fun f =>
             { f with imageUrl :=
                 urlOrEmpty (resp (b.map (fun g => g.nodeId)) f.nodeId) }))).flatten) := by
  intro fuel
  induction fuel with
  | zero =>
    intro xs hx
    have : xs = [] := List.eq_nil_of_length_eq_zero (by omega)
    subst this
    rfl
  | succ fuel ih =>
    intro xs hx
    cases xs with
    | nil => rfl
    | cons x rest =>
      simp only [List.length_cons] at hx
      simp only [exportLoop, chunkGo, List.map_cons, List.flatten_cons]
      have hlen : ((x :: rest).drop batchSize).length ≤ fuel := by
        simp only [List.length_drop, List.length_cons, batchSize]
        omega
      rw [ih _ hlen]

set_option maxRecDepth 8000 in
/-- **C7.** The nodes reaching the batching stage are split into contiguous
batches of at most `batchSize = 100` without reordering (the batches
reassemble to the original list), exactly one export call is issued per
batch in batch order (the call trace is the batch id-lists in order), every
returned URL is merged onto the frame with the matching `nodeId` within its
batch, and a concrete list of 250 frames yields exactly 3 calls of sizes
100, 100, 50, in that order. -/
theorem exportAllFrames_batching (resp : List String → String → Option String)
    (frames : List ExportedFrame) :
    (chunkList batchSize frames).flatten = frames
    ∧ (∀ b ∈ chunkList batchSize frames, b.length ≤ batchSize)
    ∧ (exportAllFramesBatches resp frames).1
        = (chunkList batchSize frames).map (fun b => b.map (fun f => f.nodeId))
    ∧ (exportAllFramesBatches resp frames).2
        = ((chunkList batchSize frames).map (fun b => b.map (fun f =>
            { f with imageUrl :=
                urlOrEmpty (resp (b.map (fun g => g.nodeId)) f.nodeId) }))).flatten
    ∧ ((exportAllFramesBatches (fun _ _ => none)
          (List.replicate 250
            { nodeId := "n", name := "n", path := "n", imageUrl := "",
              localPath := none, width := 0, height := 0,
              boundingBox := ⟨0, 0, 0, 0⟩ })).1).map List.length
        = [100, 100, 50] := by
  refine ⟨?_, ?_, ?_, ?_, ?_⟩
  · exact chunkGo_flatten batchSize (by decide) frames.length frames (Nat.le_refl _)
  · exact fun b hb => chunkGo_length_le batchSize frames.length frames b hb
  · rw [exportAllFramesBatches, exportLoop_spec resp frames.length frames (Nat.le_refl _)]
    rfl
  · rw [exportAllFramesBatches, exportLoop_spec resp frames.length frames (Nat.le_refl _)]
    rfl
  · decide

/-! ## Export response handling (source lines 237-259) -/

/-- JS truthiness of the `err : string | null` field at line 254:
`null` and `""` are falsy, every other string is truthy. -/
def errTruthy : Option String → Bool
  | none => false
  | some s => !(s == "")

/-- `exportImages` after schema validation (lines 253-258): throw
`Figma image export error: <err>` when `if (parsed.err)` holds, otherwise
return the parsed identifier→URL mapping unchanged. -/
def exportImagesResult {β : Type} (err : Option String) (images : β) :
    Except String β :=
  if errTruthy err then
    .error ("Figma image export error: " ++ err.getD "")
  else
    .ok images

/-- **C8 counterexample.** A response whose `err` field is the empty string
has a non-null `err`, yet the call does not throw: `if (parsed.err)` tests
JS truthiness and `""` is falsy, so the images mapping is returned. -/
theorem exportImages_err_counterexample :
    (some "" : Option String) ≠ none
    ∧ exportImagesResult (some "") [("1:2", "https://example.com/a.png")]
        = Except.ok [("1:2", "https://example.com/a.png")] :=
  ⟨by simp, rfl⟩

/-- **C8 (amended).** A requested identifier omitted from the response
mapping leaves that node's `imageUrl` as the empty string, with no error
raised (the merge `images[id] || ''` is total); and `exportImages` throws
`Figma image export error: <err>` exactly when `err` is non-null AND
non-empty — for `err = null` and for `err = ""` it returns the mapping. -/
theorem exportImages_err_spec {β : Type} (images : β) (e : String)
    (f : ExportedFrame) (h : e ≠ "") :
    exportImagesResult (some e) images
        = Except.error ("Figma image export error: " ++ e)
    ∧ exportImagesResult none images = Except.ok images
    ∧ exportImagesResult (some "") images = Except.ok images
    ∧ ({ f with imageUrl := urlOrEmpty none } : ExportedFrame).imageUrl = "" := by
  refine ⟨?_, rfl, rfl, rfl⟩
  simp only [exportImagesResult, errTruthy, Option.getD]
  rw [if_pos]
  simpa using h

/-- Witness for C8 (amended) at `err = "boom"`. -/
theorem exportImages_err_spec_witness :
    ("boom" : String) ≠ ""
    ∧ (exportImagesResult (some "boom") (0 : Nat)
          = Except.error ("Figma image export error: " ++ "boom")
       ∧ exportImagesResult none (0 : Nat) = Except.ok 0
       ∧ exportImagesResult (some "") (0 : Nat) = Except.ok 0
       ∧ ({ nodeId := "n", name := "n", path := "n",
            imageUrl := urlOrEmpty none, localPath := none, width := 0,
            height := 0, boundingBox := ⟨0, 0, 0, 0⟩ } : ExportedFrame).imageUrl
          = "") :=
  ⟨by decide, exportImages_err_spec (0 : Nat) "boom"
    { nodeId := "n", name := "n", path := "n", imageUrl := "",
      localPath := none, width := 0, height := 0,
      boundingBox := ⟨0, 0, 0, 0⟩ } (by decide)⟩

/-! ## Image download and cache (source lines 395-447) -/

/-- A filesystem, modelled as a partial map from path to file bytes. -/
abbrev FileSystem : Type := String → Option (List Nat)

/-- `writeFile(cachePath, buffer)` (line 430). -/
def FileSystem.write (fs : FileSystem) (p : String) (content : List Nat) :
    FileSystem :=
  fun q => if q = p then some content else fs q

/-- The empty cache directory. -/
def fsEmpty : FileSystem := fun _ => none

/-- The visible outcome of `fetch(url)` on a pre-signed URL (lines 424-429):
`ok` status flag, numeric status, and the response body bytes. -/
structure FetchResult where
  ok : Bool
  status : Nat
  body : List Nat

/-- The character class `[a-zA-Z0-9]` of the sanitizer regex (line 412). -/
def isAlnum (c : Char) : Bool :=
  ('a' ≤ c && c ≤ 'z') || ('A' ≤ c && c ≤ 'Z') || ('0' ≤ c && c ≤ '9')

/-- `nodeId.replace(/[^a-zA-Z0-9]/g, '_')` (line 412). -/
def cacheKey (nodeId : String) : String :=
  String.mk (nodeId.data.map (fun c => if isAlnum c then c else '_'))

/-- `join(this.cacheDir, cacheKey + '.png')` (line 413); `path.join`
concatenates with a `/` separator. -/
def cachePath (cacheDir nodeId : String) : String :=
  cacheDir ++ "/" ++ cacheKey nodeId ++ ".png"

/-- The visible outcome of a successful `downloadAndCacheImage` call: the
returned path, the filesystem afterwards, and how many network requests
were issued. -/
structure DownloadOutcome where
  path : String
  fs : FileSystem
  networkCalls : Nat

/-- `downloadAndCacheImage(url, nodeId)` (lines 407-433): if a file exists
at the derived cache path, return that path with no network access
(lines 415-421); otherwise `fetch(url)`, throw
`Failed to download image: <status>` on a non-success status
(lines 424-427), else persist the full body at the derived path and return
it (lines 429-432). -/
def downloadAndCacheImage (fs : FileSystem) (fetchUrl : String → FetchResult)
    (cacheDir url nodeId : String) : Except String DownloadOutcome :=
  let p := cachePath cacheDir nodeId
  match fs p with
  | some _ => .ok ⟨p, fs, 0⟩
  | none =>
    let r := fetchUrl url
    if r.ok then
      .ok ⟨p, fs.write p r.body, 1⟩
    else
      .error ("Failed to download image: " ++ toString r.status)

/-- **C9.** Cache behaviour of `downloadAndCacheImage`, keyed only by
`nodeId`: (hit) once a file exists at the derived path, the call returns
that path immediately with zero network calls and an unchanged filesystem,
whatever the remote URL — in particular a URL different from the one
originally downloaded; (miss) with no file at the derived path and a
successful fetch, the full response body is persisted at the derived path,
which is returned, with exactly one network call; and after such a miss,
any later call for the same `nodeId` with any URL is a zero-network hit
returning the same path. -/
theorem downloadAndCacheImage_cache (fs : FileSystem)
    (fetchUrl : String → FetchResult) (cacheDir nodeId url : String) :
    (∀ c, fs (cachePath cacheDir nodeId) = some c →
      ∀ u, downloadAndCacheImage fs fetchUrl cacheDir u nodeId
        = Except.ok ⟨cachePath cacheDir nodeId, fs, 0⟩)
    ∧ (fs (cachePath cacheDir nodeId) = none → (fetchUrl url).ok = true →
      downloadAndCacheImage fs fetchUrl cacheDir url nodeId
        = Except.ok ⟨cachePath cacheDir nodeId,
            fs.write (cachePath cacheDir nodeId) (fetchUrl url).body, 1⟩)
    ∧ (fs (cachePath cacheDir nodeId) = none → (fetchUrl url).ok = true →
      ∀ u, downloadAndCacheImage
          (fs.write (cachePath cacheDir nodeId) (fetchUrl url).body)
          fetchUrl cacheDir u nodeId
        = Except.ok ⟨cachePath cacheDir nodeId,
            fs.write (cachePath cacheDir nodeId) (fetchUrl url).body, 0⟩) := by
  refine ⟨?_, ?_, ?_⟩
  · intro c hc u
    simp [downloadAndCacheImage, hc]
  · intro hn hok
    simp [downloadAndCacheImage, hn, hok]
  · intro hn hok u
    simp [downloadAndCacheImage, FileSystem.write]

/-- Witness for C9: empty cache, then a successful download of `[1, 2, 3]`,
then a hit for the same `nodeId` under a different URL. -/
theorem downloadAndCacheImage_cache_witness :
    (fsEmpty (cachePath "cache" "1:2") = none
     ∧ ((fun _ => ⟨true, 200, [1, 2, 3]⟩ : String → FetchResult)
          "https://x/a.png").ok = true)
    ∧ downloadAndCacheImage fsEmpty (fun _ => ⟨true, 200, [1, 2, 3]⟩)
        "cache" "https://x/a.png" "1:2"
      = Except.ok ⟨cachePath "cache" "1:2",
          fsEmpty.write (cachePath "cache" "1:2") [1, 2, 3], 1⟩
    ∧ downloadAndCacheImage
        (fsEmpty.write (cachePath "cache" "1:2") [1, 2, 3])
        (fun _ => ⟨true, 200, [1, 2, 3]⟩) "cache" "https://x/b.png" "1:2"
      = Except.ok ⟨cachePath "cache" "1:2",
          fsEmpty.write (cachePath "cache" "1:2") [1, 2, 3], 0⟩ :=
  ⟨⟨rfl, rfl⟩,
   (downloadAndCacheImage_cache fsEmpty (fun _ => ⟨true, 200, [1, 2, 3]⟩)
      "cache" "1:2" "https://x/a.png").2.1 rfl rfl,
   (downloadAndCacheImage_cache fsEmpty (fun _ => ⟨true, 200, [1, 2, 3]⟩)
      "cache" "1:2" "https://x/a.png").2.2 rfl rfl "https://x/b.png"⟩

/-- **C10.** The cache-filename derivation is not injective: the distinct
nodeIds `"1:2"` and `"1-2"` derive the same cache path, so after `"1:2"`
is downloaded and cached, resolving `"1-2"` (under a different URL)
returns the file cached for `"1:2"` with zero network calls. -/
theorem cacheKey_not_injective :
    cacheKey "1:2" = cacheKey "1-2"
    ∧ "1:2" ≠ "1-2"
    ∧ downloadAndCacheImage fsEmpty (fun _ => ⟨true, 200, [9, 9]⟩)
        "cache" "https://x/a.png" "1:2"
      = Except.ok ⟨cachePath "cache" "1:2",
          fsEmpty.write (cachePath "cache" "1:2") [9, 9], 1⟩
    ∧ downloadAndCacheImage
        (fsEmpty.write (cachePath "cache" "1:2") [9, 9])
        (fun _ => ⟨false, 500, []⟩) "cache" "https://x/b.png" "1-2"
      = Except.ok ⟨cachePath "cache" "1:2",
          fsEmpty.write (cachePath "cache" "1:2") [9, 9], 0⟩ :=
  ⟨rfl, by decide, rfl, rfl⟩

/-- The download-and-cache stage of `exportAllFrames` (lines 336-349): for
each frame, if `frame.imageUrl` is truthy (non-empty, line 341), await
`downloadAndCacheImage` and set `localPath` (lines 342-346); a frame with
an empty `imageUrl` is passed through untouched, `localPath` left unset.
There is no `try/catch` around the loop, so an error thrown by
`downloadAndCacheImage` propagates and rejects the whole `exportAllFrames`
call — modelled by the `Except` short-circuit. -/
def downloadStage (fetchUrl : String → FetchResult) (cacheDir : String) :
    FileSystem → List ExportedFrame → Except String (List ExportedFrame × FileSystem)
  | fs, [] => .ok ([], fs)
  | fs, f :: rest =>
    if f.imageUrl == "" then
      match downloadStage fetchUrl cacheDir fs rest with
      | .error e => .error e
      | .ok (out, fs') => .ok (f :: out, fs')
    else
      match downloadAndCacheImage fs fetchUrl cacheDir f.imageUrl f.nodeId with
      | .error e => .error e
      | .ok r =>
        match downloadStage fetchUrl cacheDir r.fs rest with
        | .error e => .error e
        | .ok (out, fs') => .ok ({ f with localPath := some r.path } :: out, fs')

/-- **C1 counterexample.** With an empty cache and a fetch that answers
status 404 for every URL, a frame list whose first frame has a non-empty
`imageUrl` makes the download stage — and with it the whole
`exportAllFrames` call — fail: no enriched list covering the remaining
nodes is returned, contrary to the claim that an individual download
failure is skipped. -/
theorem download_failure_counterexample :
    downloadStage (fun _ => ⟨false, 404, []⟩) "cache" fsEmpty
      [{ nodeId := "1:2", name := "A", path := "Doc / A",
         imageUrl := "https://x/a.png", localPath := none, width := 10,
         height := 10, boundingBox := ⟨0, 0, 10, 10⟩ },
       { nodeId := "1:3", name := "B", path := "Doc / B",
         imageUrl := "https://x/b.png", localPath := none, width := 10,
         height := 10, boundingBox := ⟨0, 0, 10, 10⟩ }]
      = Except.error "Failed to download image: 404" := rfl

/-- **C1 (amended).** With `downloadImages = true`, the failure of an
individual image download IS fatal to the whole operation: when a frame
has a non-empty `imageUrl`, no cached file at its derived path, and the
fetch of its URL reports a non-success status, the download stage throws
`Failed to download image: <status>` and no enriched list is returned
(`downloadAndCacheImage` throws at line 426 and `exportAllFrames` does not
catch it).  Only a frame whose `imageUrl` is empty is skipped with
`localPath` left unset, the stage continuing past it. -/
theorem download_failure_aborts (fetchUrl : String → FetchResult)
    (cacheDir : String) (fs : FileSystem) (f : ExportedFrame)
    (rest : List ExportedFrame) (hurl : f.imageUrl ≠ "")
    (hmiss : fs (cachePath cacheDir f.nodeId) = none)
    (hfail : (fetchUrl f.imageUrl).ok = false) :
    downloadStage fetchUrl cacheDir fs (f :: rest)
      = Except.error
          ("Failed to download image: " ++ toString (fetchUrl f.imageUrl).status)
    ∧ ∀ (g : ExportedFrame) (rest' : List ExportedFrame), g.imageUrl = "" →
        downloadStage fetchUrl cacheDir fs (g :: rest')
          = (downloadStage fetchUrl cacheDir fs rest').map
              (fun pr => (g :: pr.1, pr.2)) := by
  constructor
  · have hbeq : (f.imageUrl == "") = false := by
      simp [hurl]
    simp only [downloadStage, hbeq, Bool.false_eq_true, if_false,
      downloadAndCacheImage, hmiss, hfail]
  · intro g rest' hg
    have hbeq : (g.imageUrl == "") = true := by
      simp [hg]
    simp only [downloadStage, hbeq, if_true]
    cases downloadStage fetchUrl cacheDir fs rest' with
    | error e => rfl
    | ok pr => rfl

/-- Witness for C1 (amended): a one-frame list with a 404 fetch, and an
empty-URL frame ahead of an empty list. -/
theorem download_failure_aborts_witness :
    (({ nodeId := "1:2", name := "A", path := "Doc / A",
        imageUrl := "https://x/a.png", localPath := none, width := 10,
        height := 10, boundingBox := ⟨0, 0, 10, 10⟩ } : ExportedFrame).imageUrl ≠ ""
     ∧ fsEmpty (cachePath "cache" "1:2") = none
     ∧ ((fun _ => ⟨false, 404, []⟩ : String → FetchResult) "https://x/a.png").ok
        = false)
    ∧ downloadStage (fun _ => ⟨false, 404, []⟩) "cache" fsEmpty
        [{ nodeId := "1:2", name := "A", path := "Doc / A",
           imageUrl := "https://x/a.png", localPath := none, width := 10,
           height := 10, boundingBox := ⟨0, 0, 10, 10⟩ }]
      = Except.error ("Failed to download image: "
          ++ toString ((fun _ => (⟨false, 404, []⟩ : FetchResult)) "https://x/a.png").status) :=
  ⟨⟨by decide, rfl, rfl⟩,
   (download_failure_aborts (fun _ => ⟨false, 404, []⟩) "cache" fsEmpty
      { nodeId := "1:2", name := "A", path := "Doc / A",
        imageUrl := "https://x/a.png", localPath := none, width := 10,
        height := 10, boundingBox := ⟨0, 0, 10, 10⟩ } [] (by decide) rfl rfl).1⟩

end Parity
